import Mathlib

/-!
Shallow embedding of the mastery/progression scoring logic of the quiz
application in `app/app.py` (SQLite tables `quiz`, `attempt`, `response`),
covering both revisions present in the repository history:

* the later revision of `get_two_category_mastery` (most recent live attempt,
  per-category accuracy, unlock when both accuracies are 100%),
* the earlier revision (aggregate over all live responses, 17.5-point
  pass threshold, overall > 70),
* `next_step_concept`, the `student_dashboard` unlock flag, and
  `_select_questions_payload` (random balanced question selection).

Machine floats of the Python code are modelled as exact rationals; the 0/1
integer column `response.score` is modelled as a `Bool`; ISO-8601 timestamp
strings (which SQLite orders lexicographically, i.e. chronologically) are
modelled as naturals.
-/

namespace FypQuiz

/-- A row of the `quiz` table.  `optionsJson` is the JSON parse of
`options_text`: `some xs` when the text parses to a JSON list (with the
list entries), `none` when parsing fails or the value is not a list. -/
structure QuizRow where
  quiz_id : Nat
  question : String
  optionsJson : Option (List String)
  two_category : String
  nf_level : String
  concept_tag : String
deriving DecidableEq

/-- A row of the `attempt` table.  `source` is `none` for SQL NULL. -/
structure AttemptRow where
  attempt_id : Nat
  student_id : Nat
  started_at : Nat
  source : Option String
deriving DecidableEq

/-- A row of the `response` table; `score` models the 0/1 correctness
integer written at submission time. -/
structure ResponseRow where
  student_id : Nat
  attempt_id : Nat
  quiz_id : Nat
  score : Bool
deriving DecidableEq

/-- The database state, together with the two schema facts the code probes
via `PRAGMA table_info`: whether `quiz` has the `two_category` column and
whether `attempt` has the `source` column. -/
structure DB where
  quiz : List QuizRow
  attempt : List AttemptRow
  response : List ResponseRow
  quizHasTwoCategory : Bool
  attemptHasSource : Bool
deriving DecidableEq

/-- The category string `'Data Modeling & DBMS Fundamentals'`. -/
def FUND : String := "Data Modeling & DBMS Fundamentals"

/-- The category string `'Normalization & Dependencies'`. -/
def NORM : String := "Normalization & Dependencies"

/-- `safe_parse_options` from `app.py`: on a successfully parsed JSON list
it keeps the first four entries (`data[:4]`), otherwise it returns `[]`. -/
def safe_parse_options (o : Option (List String)) : List String :=
  match o with
  | some data => data.take 4
  | none => []

/-- Python's `round` to an integer: round half to even, on exact rationals. -/
def pyRound (x : ℚ) : ℤ :=
  if Int.fract x < 1/2 then ⌊x⌋
  else if 1/2 < Int.fract x then ⌊x⌋ + 1
  else if ⌊x⌋ % 2 = 0 then ⌊x⌋ else ⌊x⌋ + 1

/-- Python's `round(x, 1)`. -/
def round1 (x : ℚ) : ℚ := (pyRound (10 * x) : ℚ) / 10

/-- SQLite's `ROUND(x, 1)` for the nonnegative values that occur here
(half away from zero). -/
def sqround1 (x : ℚ) : ℚ := ((⌊10 * x + 1/2⌋ : ℤ) : ℚ) / 10

/-- The attempt-`source` guard of `get_two_category_mastery`:
`IFNULL(source,'live')='live'` when the `source` column exists, the
constant `'live'='live'` (always true) when it does not. -/
def isLive (db : DB) (a : AttemptRow) : Bool :=
  if db.attemptHasSource then (a.source.getD "live") == "live" else true

/-- One step of `ORDER BY started_at DESC LIMIT 1`: keep the row with the
larger `started_at` (the earlier-encountered row on ties). -/
def pickLatest : Option AttemptRow → AttemptRow → Option AttemptRow
  | none, a => some a
  | some b, a => if b.started_at < a.started_at then some a else some b

/-- The student's most recent attempt whose source passes the live guard:
`SELECT attempt_id FROM attempt WHERE student_id=? AND <guard>
ORDER BY started_at DESC LIMIT 1`. -/
def latestLiveRow (db : DB) (sid : Nat) : Option AttemptRow :=
  (db.attempt.filter (fun a => a.student_id == sid && isLive db a)).foldl
    pickLatest none

/-- SQL join of the student's responses in one attempt with the `quiz`
table: `FROM response r JOIN quiz q ON q.quiz_id = r.quiz_id
WHERE r.student_id=? AND r.attempt_id=?`. -/
def attemptJoin (db : DB) (sid aid : Nat) : List (ResponseRow × QuizRow) :=
  (db.response.filter (fun r => r.student_id == sid && r.attempt_id == aid)).flatMap
    (fun r => (db.quiz.filter (fun q => q.quiz_id == r.quiz_id)).map
      (fun q => (r, q)))

/-- The rows of the join that fall in category `cat`
(the `GROUP BY q.two_category` group of `cat`). -/
def catRows (db : DB) (sid aid : Nat) (cat : String) :
    List (ResponseRow × QuizRow) :=
  (attemptJoin db sid aid).filter (fun rq => rq.2.two_category == cat)

/-- `COUNT(*)` of the category's group. -/
def catTotal (db : DB) (sid aid : Nat) (cat : String) : Nat :=
  (catRows db sid aid cat).length

/-- `SUM(r.score)` of the category's group (scores are 0/1). -/
def catCorrect (db : DB) (sid aid : Nat) (cat : String) : Nat :=
  ((catRows db sid aid cat).filter (fun rq => rq.1.score)).length

/-- One category's slice of the record returned by
`get_two_category_mastery`. -/
structure CatStat where
  pct : ℚ
  pts : ℚ
  total : Nat
  correct : Nat
deriving DecidableEq

/-- The record returned by the later revision of
`get_two_category_mastery`. -/
structure Mastery where
  fund : CatStat
  norm : CatStat
  overall_points : ℚ
deriving DecidableEq

/-- The `empty` record returned on the degenerate paths. -/
def emptyMastery : Mastery :=
  { fund := ⟨0, 0, 0, 0⟩, norm := ⟨0, 0, 0, 0⟩, overall_points := 0 }

/-- The aggregation branch of the later `get_two_category_mastery`, for one
attempt: `pct = round(100*correct/total, 1)` (0.0 on an empty category),
`pts = round((pct/100)*50, 1)`,
`overall_points = round(fund_pts + norm_pts, 1)`. -/
def masteryOfAttempt (db : DB) (sid aid : Nat) : Mastery :=
  let ft := catTotal db sid aid FUND
  let fc := catCorrect db sid aid FUND
  let nt := catTotal db sid aid NORM
  let nc := catCorrect db sid aid NORM
  let fpct := if ft = 0 then 0 else round1 (100 * (fc : ℚ) / (ft : ℚ))
  let npct := if nt = 0 then 0 else round1 (100 * (nc : ℚ) / (nt : ℚ))
  let fpts := round1 (fpct / 100 * 50)
  let npts := round1 (npct / 100 * 50)
  { fund := ⟨fpct, fpts, ft, fc⟩
    norm := ⟨npct, npts, nt, nc⟩
    overall_points := round1 (fpts + npts) }

/-- Later revision of `get_two_category_mastery`: return `empty` when the
`two_category` column is missing or the student has no live attempt;
otherwise aggregate the responses of the most recent live attempt. -/
def get_two_category_mastery (db : DB) (sid : Nat) : Mastery :=
  if db.quizHasTwoCategory = false then emptyMastery else
  match latestLiveRow db sid with
  | none => emptyMastery
  | some arow => masteryOfAttempt db sid arow.attempt_id

/-- `next_step_concept` (later revision): the first category whose mastery
accuracy is below 100%, `none` when neither is. -/
def next_step_concept (db : DB) (sid : Nat) : Option String :=
  let m := get_two_category_mastery db sid
  if m.fund.pct < 100 then some FUND
  else if m.norm.pct < 100 then some NORM
  else none

/-- The `unlocked_next` flag computed in `student_dashboard`:
`fund.pct == 100.0 and norm.pct == 100.0`. -/
def dashboard_unlocked_next (db : DB) (sid : Nat) : Bool :=
  let m := get_two_category_mastery db sid
  decide (m.fund.pct = 100) && decide (m.norm.pct = 100)

/-! ### The earlier revision of `get_two_category_mastery`

Its SQL aggregates over all of the student's live responses (no restriction
to the latest attempt): `FROM response r JOIN quiz q ON q.quiz_id = r.quiz_id
JOIN attempt a ON a.attempt_id = r.attempt_id WHERE r.student_id = ? AND
a.source = 'live' AND q.two_category IN (FUND, NORM) GROUP BY
q.two_category`, with `acc_pct = ROUND(AVG(r.score)*100.0, 1)`. -/

/-- The three-table join of the earlier revision, restricted to the group
of category `cat` (note: SQL `a.source = 'live'` excludes NULL sources). -/
def oldCatRows (db : DB) (sid : Nat) (cat : String) :
    List (ResponseRow × QuizRow) :=
  ((db.response.filter (fun r => r.student_id == sid)).flatMap
    (fun r => (db.quiz.filter (fun q => q.quiz_id == r.quiz_id)).flatMap
      (fun q =>
        (db.attempt.filter (fun a =>
          a.attempt_id == r.attempt_id && a.source == some "live")).map
          (fun _ => (r, q))))).filter
    (fun rq => rq.2.two_category == cat)

/-- The record returned by the earlier revision of
`get_two_category_mastery` (fields used by its unlock computation). -/
structure OldMastery where
  fund_acc : ℚ
  norm_acc : ℚ
  fund_points : ℚ
  norm_points : ℚ
  overall_points : ℚ
  unlocked_next : Bool
deriving DecidableEq

/-- Earlier revision of `get_two_category_mastery`: per-category accuracy
`ROUND(AVG(score)*100, 1)` over all live responses (0.0 when the category's
group is empty), `points = round((acc/100)*50, 1)`,
`overall = round(fund_points + norm_points, 1)`, and
`unlocked_next = fund_points >= 17.5 and norm_points >= 17.5 and
overall_points > 70.0`. -/
def old_get_two_category_mastery (db : DB) (sid : Nat) : OldMastery :=
  let frows := oldCatRows db sid FUND
  let nrows := oldCatRows db sid NORM
  let fn := frows.length
  let fcorr := (frows.filter (fun rq => rq.1.score)).length
  let nn := nrows.length
  let ncorr := (nrows.filter (fun rq => rq.1.score)).length
  let facc := if fn = 0 then 0 else sqround1 ((fcorr : ℚ) / (fn : ℚ) * 100)
  let nacc := if nn = 0 then 0 else sqround1 ((ncorr : ℚ) / (nn : ℚ) * 100)
  let fpts := round1 (facc / 100 * 50)
  let npts := round1 (nacc / 100 * 50)
  let overall := round1 (fpts + npts)
  { fund_acc := facc
    norm_acc := nacc
    fund_points := fpts
    norm_points := npts
    overall_points := overall
    unlocked_next :=
      decide (fpts ≥ 35/2) && decide (npts ≥ 35/2) && decide (overall > 70) }

/-! ### `_select_questions_payload`

The two `ORDER BY RANDOM() LIMIT k` category queries, the combined top-up
query and the final `random.shuffle` are nondeterministic; the embedding
takes the randomly ordered row lists (and the shuffled question list) as
parameters, constrained in the theorems to be permutations of the
corresponding table slices. -/

/-- A question of the rendered payload (the dict built in
`_select_questions_payload`). -/
structure Question where
  quiz_id : Nat
  question : String
  options : List String
  nf_level : String
  concept_tag : String
deriving DecidableEq

/-- The payload dict built from a `quiz` row. -/
def rowToQuestion (row : QuizRow) : Question :=
  { quiz_id := row.quiz_id
    question := row.question
    options := safe_parse_options row.optionsJson
    nf_level := row.nf_level
    concept_tag := row.concept_tag }

/-- The loop body shared by both passes: skip a row whose `quiz_id` was
already seen or whose options do not parse to exactly 4 entries, otherwise
append the question and mark the id as seen. -/
def addRow (acc : List Question × List Nat) (row : QuizRow) :
    List Question × List Nat :=
  if row.quiz_id ∈ acc.2 then acc
  else if (safe_parse_options row.optionsJson).length ≠ 4 then acc
  else (acc.1 ++ [rowToQuestion row], row.quiz_id :: acc.2)

/-- The top-up loop body, which stops appending once `total` questions are
collected (the `break`). -/
def addRowBounded (total : Nat) (acc : List Question × List Nat)
    (row : QuizRow) : List Question × List Nat :=
  if total ≤ acc.1.length then acc else addRow acc row

/-- One category pass: fold the first `pc` rows of the category's randomly
ordered rows (`LIMIT pc`) through the loop body. -/
def drawCategory (rows : List QuizRow) (pc : Nat)
    (acc : List Question × List Nat) : List Question × List Nat :=
  (rows.take pc).foldl addRow acc

/-- `_select_questions_payload` up to (not including) the final shuffle:
draw `max 1 (total / 2)` rows per category, then, when short of `total`,
top up from the combined pool with `LIMIT (total - len)`. -/
def selectCore (total : Nat) (cat1Rows cat2Rows comboRows : List QuizRow) :
    List Question :=
  let pc := max 1 (total / 2)
  let s := drawCategory cat2Rows pc (drawCategory cat1Rows pc ([], []))
  if s.1.length < total then
    ((comboRows.take (total - s.1.length)).foldl (addRowBounded total) s).1
  else s.1

/-- The returned list: the shuffled questions, capped at `total`
(`random.shuffle(questions); return questions[:total]`). -/
def selectPayload (total : Nat) (shuffled : List Question) : List Question :=
  shuffled.take total

/-- The slice of the `quiz` table a category query ranges over. -/
def categorySlice (dbQuiz : List QuizRow) (cat : String) : List QuizRow :=
  dbQuiz.filter (fun q => q.two_category == cat)

/-- The slice of the `quiz` table the combined top-up query ranges over
(`two_category IN (FUND, NORM)`). -/
def comboSlice (dbQuiz : List QuizRow) : List QuizRow :=
  dbQuiz.filter (fun q => q.two_category == FUND || q.two_category == NORM)

/-- The questions of a row list that the validity filter keeps: options
parse to exactly 4 entries. -/
def validCount (dbQuiz : List QuizRow) (cat : String) : Nat :=
  (dbQuiz.filter (fun q =>
    q.two_category == cat && (safe_parse_options q.optionsJson).length == 4)).length

/-! ### Spec-side reformulations

Independent restatements of the spec's arithmetic, to be compared with the
embedded code: per-category response counts of one attempt obtained by a
direct `quiz_id` lookup rather than the SQL join. -/

/-- Whether the question a response points at (looked up by `quiz_id`)
belongs to category `cat`. -/
def responseInCat (dbQuiz : List QuizRow) (cat : String) (r : ResponseRow) :
    Bool :=
  (dbQuiz.find? (fun q => q.quiz_id == r.quiz_id)).any
    (fun q => q.two_category == cat)

/-- The student's responses in one attempt. -/
def attemptResponses (db : DB) (sid aid : Nat) : List ResponseRow :=
  db.response.filter (fun r => r.student_id == sid && r.attempt_id == aid)

/-- Spec-side count: responses of the attempt whose question is in `cat`. -/
def specCatTotal (db : DB) (sid aid : Nat) (cat : String) : Nat :=
  ((attemptResponses db sid aid).filter (responseInCat db.quiz cat)).length

/-- Spec-side count: correct responses of the attempt whose question is in
`cat`. -/
def specCatCorrect (db : DB) (sid aid : Nat) (cat : String) : Nat :=
  (((attemptResponses db sid aid).filter (responseInCat db.quiz cat)).filter
    (fun r => r.score)).length

/-- Spec-side accuracy of one attempt in one category:
correct/total × 100 rounded to one decimal, 0.0 on an empty category. -/
def attemptAccuracy (db : DB) (sid aid : Nat) (cat : String) : ℚ :=
  if specCatTotal db sid aid cat = 0 then 0
  else round1 (100 * (specCatCorrect db sid aid cat : ℚ) /
    (specCatTotal db sid aid cat : ℚ))

/-! ### Concrete database states used as witnesses and counterexamples -/

/-- A fundamentals question with four options. -/
def wQ1 : QuizRow := ⟨1, "q1", some ["a", "b", "c", "d"], FUND, "F", "t"⟩

/-- A normalization question with four options. -/
def wQ2 : QuizRow := ⟨2, "q2", some ["a", "b", "c", "d"], NORM, "F", "t"⟩

/-- An early live attempt of student 1. -/
def wA1 : AttemptRow := ⟨1, 1, 1, some "live"⟩

/-- The most recent live attempt of student 1. -/
def wA2 : AttemptRow := ⟨2, 1, 2, some "live"⟩

/-- A practice (non-live) attempt of student 1. -/
def wA3 : AttemptRow := ⟨3, 1, 0, some "practice"⟩

/-- A correct response of student 1 in attempt 2 on question 1. -/
def wR1 : ResponseRow := ⟨1, 2, 1, true⟩

/-- A correct response of student 1 in attempt 2 on question 2. -/
def wR2 : ResponseRow := ⟨1, 2, 2, true⟩

/-- A response of student 1 attached to the non-live attempt 3. -/
def wR3 : ResponseRow := ⟨1, 3, 1, true⟩

/-- A small database: two questions, three attempts, two responses. -/
def wDB : DB := ⟨[wQ1, wQ2], [wA1, wA2, wA3], [wR1, wR2], true, true⟩

/-- A valid fundamentals question with id `i`. -/
def mkFund (i : Nat) : QuizRow := ⟨i, "", some ["a", "b", "c", "d"], FUND, "", ""⟩

/-- A valid normalization question with id `i`. -/
def mkNorm (i : Nat) : QuizRow := ⟨i, "", some ["a", "b", "c", "d"], NORM, "", ""⟩

/-- A fundamentals question whose options do not parse to 4 entries. -/
def badRow : QuizRow := ⟨16, "", some [], FUND, "", ""⟩

/-- Fifteen valid fundamentals questions, ids 1–15. -/
def cexFundRows : List QuizRow := (List.range 15).map (fun i => mkFund (i + 1))

/-- Fifteen valid normalization questions, ids 17–31. -/
def cexNormRows : List QuizRow := (List.range 15).map (fun i => mkNorm (i + 17))

/-- A question bank with 15 valid questions per category plus one invalid
fundamentals question. -/
def cexQuiz : List QuizRow := badRow :: (cexFundRows ++ cexNormRows)

/-- A random order of the fundamentals slice that puts the invalid
question first. -/
def cexC1 : List QuizRow := badRow :: cexFundRows

/-- A random order of the normalization slice. -/
def cexC2 : List QuizRow := cexNormRows

/-- A random order of the combined pool that puts the invalid question
first. -/
def cexCombo : List QuizRow := cexQuiz

/-- A question bank with exactly 15 valid questions per category and no
invalid ones. -/
def wQuizBank : List QuizRow := cexFundRows ++ cexNormRows

/-! ### Rounding lemmas -/

theorem pyRound_intCast (n : ℤ) : pyRound (n : ℚ) = n := by
  unfold pyRound
  rw [Int.fract_intCast, Int.floor_intCast]
  norm_num

theorem pyRound_le {x : ℚ} {n : ℤ} (h : x ≤ (n : ℚ)) : pyRound x ≤ n := by
  have hfloor : ⌊x⌋ ≤ n := by
    have h1 := Int.floor_le_floor h
    rwa [Int.floor_intCast] at h1
  have hplus : ¬ Int.fract x < 1/2 → ⌊x⌋ + 1 ≤ n := by
    intro hf
    have hx : (⌊x⌋ : ℚ) + 1/2 ≤ x := by
      have hsum := Int.floor_add_fract x
      have : (1:ℚ)/2 ≤ Int.fract x := not_lt.mp hf
      linarith
    have hlt : (⌊x⌋ : ℚ) < (n : ℚ) := by linarith
    have : ⌊x⌋ < n := by exact_mod_cast hlt
    omega
  unfold pyRound
  split_ifs with h1 h2 h3
  · exact hfloor
  · exact hplus h1
  · exact hfloor
  · exact hplus h1

theorem round1_le {x : ℚ} {n : ℤ} (h : x ≤ (n : ℚ)) : round1 x ≤ (n : ℚ) := by
  have h10 : 10 * x ≤ ((10 * n : ℤ) : ℚ) := by push_cast; linarith
  have hp := pyRound_le h10
  unfold round1
  rw [div_le_iff₀ (by norm_num : (0:ℚ) < 10)]
  calc (pyRound (10 * x) : ℚ) ≤ ((10 * n : ℤ) : ℚ) := by exact_mod_cast hp
    _ = (n : ℚ) * 10 := by push_cast; ring

theorem round1_tenth (k : ℤ) : round1 ((k : ℚ) / 10) = (k : ℚ) / 10 := by
  unfold round1
  have e : (10 : ℚ) * ((k : ℚ) / 10) = (k : ℚ) := by field_simp
  rw [e, pyRound_intCast]

theorem round1_den (x : ℚ) : ∃ k : ℤ, round1 x = (k : ℚ) / 10 :=
  ⟨pyRound (10 * x), rfl⟩

theorem round1_intCast (n : ℤ) : round1 ((n : ℚ)) = (n : ℚ) := by
  have h := round1_tenth (10 * n)
  have e : ((10 * n : ℤ) : ℚ) / 10 = (n : ℚ) := by push_cast; ring
  rwa [e] at h

theorem round1_zero : round1 0 = 0 := by
  simpa using round1_intCast 0

theorem round1_fifty : round1 50 = 50 := by
  simpa using round1_intCast 50

/-- If `c ≤ t` then the code's percentage formula stays at most 100. -/
theorem pct_formula_le_100 {c t : Nat} (hct : c ≤ t) :
    (if t = 0 then (0:ℚ) else round1 (100 * (c : ℚ) / (t : ℚ))) ≤ 100 := by
  split_ifs with h
  · norm_num
  · have ht : (0:ℚ) < (t : ℚ) := by
      exact_mod_cast Nat.pos_of_ne_zero h
    have hc : (c : ℚ) ≤ (t : ℚ) := by exact_mod_cast hct
    have harg : 100 * (c : ℚ) / (t : ℚ) ≤ ((100 : ℤ) : ℚ) := by
      rw [div_le_iff₀ ht]; push_cast; nlinarith
    have := round1_le harg
    simpa using this

/-- If `pct ≤ 100` then the code's points formula stays at most 50. -/
theorem pts_formula_le_50 {pct : ℚ} (h : pct ≤ 100) :
    round1 (pct / 100 * 50) ≤ 50 := by
  have harg : pct / 100 * 50 ≤ ((50 : ℤ) : ℚ) := by push_cast; linarith
  have := round1_le harg
  simpa using this

/-- A sum of two already-rounded values is unchanged by rounding again. -/
theorem round1_add_round1 (x y : ℚ) :
    round1 (round1 x + round1 y) = round1 x + round1 y := by
  obtain ⟨k1, e1⟩ := round1_den x
  obtain ⟨k2, e2⟩ := round1_den y
  rw [e1, e2]
  have e : (k1 : ℚ) / 10 + (k2 : ℚ) / 10 = ((k1 + k2 : ℤ) : ℚ) / 10 := by
    push_cast; ring
  rw [e, round1_tenth]

/-! ### Structure lemmas for `get_two_category_mastery` -/

theorem catCorrect_le_catTotal (db : DB) (sid aid : Nat) (cat : String) :
    catCorrect db sid aid cat ≤ catTotal db sid aid cat :=
  List.length_filter_le _ _

theorem masteryOfAttempt_fund_pct (db : DB) (sid aid : Nat) :
    (masteryOfAttempt db sid aid).fund.pct =
      (if catTotal db sid aid FUND = 0 then (0:ℚ)
       else round1 (100 * (catCorrect db sid aid FUND : ℚ) /
         (catTotal db sid aid FUND : ℚ))) := rfl

theorem masteryOfAttempt_norm_pct (db : DB) (sid aid : Nat) :
    (masteryOfAttempt db sid aid).norm.pct =
      (if catTotal db sid aid NORM = 0 then (0:ℚ)
       else round1 (100 * (catCorrect db sid aid NORM : ℚ) /
         (catTotal db sid aid NORM : ℚ))) := rfl

theorem masteryOfAttempt_fund_pts (db : DB) (sid aid : Nat) :
    (masteryOfAttempt db sid aid).fund.pts =
      round1 ((masteryOfAttempt db sid aid).fund.pct / 100 * 50) := rfl

theorem masteryOfAttempt_norm_pts (db : DB) (sid aid : Nat) :
    (masteryOfAttempt db sid aid).norm.pts =
      round1 ((masteryOfAttempt db sid aid).norm.pct / 100 * 50) := rfl

theorem masteryOfAttempt_overall (db : DB) (sid aid : Nat) :
    (masteryOfAttempt db sid aid).overall_points =
      round1 ((masteryOfAttempt db sid aid).fund.pts +
        (masteryOfAttempt db sid aid).norm.pts) := rfl

/-- `get_two_category_mastery` either hits a degenerate path or aggregates
the most recent live attempt. -/
theorem mastery_cases (db : DB) (sid : Nat) :
    get_two_category_mastery db sid = emptyMastery ∨
    ∃ arow, latestLiveRow db sid = some arow ∧
      get_two_category_mastery db sid =
        masteryOfAttempt db sid arow.attempt_id := by
  unfold get_two_category_mastery
  split_ifs with h
  · exact Or.inl rfl
  · cases hl : latestLiveRow db sid with
    | none => exact Or.inl rfl
    | some arow => exact Or.inr ⟨arow, rfl, rfl⟩

theorem mastery_of_no_live (db : DB) (sid : Nat)
    (h : latestLiveRow db sid = none) :
    get_two_category_mastery db sid = emptyMastery := by
  unfold get_two_category_mastery
  split_ifs with hcol
  · rfl
  · rw [h]

theorem mastery_fund_pct_le (db : DB) (sid : Nat) :
    (get_two_category_mastery db sid).fund.pct ≤ 100 := by
  rcases mastery_cases db sid with h | ⟨arow, _, h⟩ <;> rw [h]
  · norm_num [emptyMastery]
  · rw [masteryOfAttempt_fund_pct]
    exact pct_formula_le_100 (catCorrect_le_catTotal db sid arow.attempt_id FUND)

theorem mastery_norm_pct_le (db : DB) (sid : Nat) :
    (get_two_category_mastery db sid).norm.pct ≤ 100 := by
  rcases mastery_cases db sid with h | ⟨arow, _, h⟩ <;> rw [h]
  · norm_num [emptyMastery]
  · rw [masteryOfAttempt_norm_pct]
    exact pct_formula_le_100 (catCorrect_le_catTotal db sid arow.attempt_id NORM)

/-! ### Join aggregation counts coincide with direct lookup counts -/

/-- With pairwise distinct `quiz_id`s, filtering the `quiz` table by an id
yields exactly the `find?` result. -/
theorem filter_quiz_id (quiz : List QuizRow)
    (hnd : (quiz.map (fun q => q.quiz_id)).Nodup) (x : Nat) :
    quiz.filter (fun q => q.quiz_id == x) =
      (quiz.find? (fun q => q.quiz_id == x)).toList := by
  induction quiz with
  | nil => rfl
  | cons q qs ih =>
    rw [List.map_cons, List.nodup_cons] at hnd
    obtain ⟨hq, hqs⟩ := hnd
    cases hqx : (q.quiz_id == x) with
    | false =>
      rw [List.filter_cons, if_neg (by simp [hqx]),
        @List.find?_cons_of_neg _ (fun q' => q'.quiz_id == x) q qs
          (by simp [hqx])]
      exact ih hqs
    | true =>
      rw [List.filter_cons, if_pos hqx,
        @List.find?_cons_of_pos _ (fun q' => q'.quiz_id == x) q qs hqx]
      have hnil : qs.filter (fun q' => q'.quiz_id == x) = [] := by
        rw [List.filter_eq_nil_iff]
        intro a ha hax
        apply hq
        have hax' : a.quiz_id = x := eq_of_beq hax
        have hqx' : q.quiz_id = x := eq_of_beq hqx
        rw [hqx', ← hax']
        exact List.mem_map_of_mem _ ha
      rw [hnil]
      rfl

/-- Counting rows of the response-quiz join that satisfy a response
predicate and a question predicate equals counting responses whose
looked-up question satisfies the question predicate (distinct ids). -/
theorem join_group_length (quiz : List QuizRow)
    (hnd : (quiz.map (fun q => q.quiz_id)).Nodup)
    (pq : QuizRow → Bool) (pr : ResponseRow → Bool) :
    ∀ l : List ResponseRow,
    ((l.flatMap (fun r => (quiz.filter (fun q => q.quiz_id == r.quiz_id)).map
        (fun q => (r, q)))).filter (fun rq => pr rq.1 && pq rq.2)).length =
    (l.filter (fun r =>
      pr r && (quiz.find? (fun q => q.quiz_id == r.quiz_id)).any pq)).length := by
  intro l
  induction l with
  | nil => rfl
  | cons r l ih =>
    rw [List.flatMap_cons, List.filter_append, List.length_append, ih,
      filter_quiz_id quiz hnd r.quiz_id]
    cases hfind : quiz.find? (fun q => q.quiz_id == r.quiz_id) with
    | none =>
      simp [List.filter_cons, hfind]
    | some q =>
      cases hpr : pr r <;> cases hpq : pq q <;>
        simp [List.filter_cons, hfind, hpr, hpq, Nat.add_comm]

/-- The embedded `COUNT(*)` per category equals the spec-side count. -/
theorem catTotal_eq_spec (db : DB) (sid aid : Nat) (cat : String)
    (hnd : (db.quiz.map (fun q => q.quiz_id)).Nodup) :
    catTotal db sid aid cat = specCatTotal db sid aid cat := by
  unfold catTotal catRows attemptJoin specCatTotal attemptResponses
    responseInCat
  rw [show (fun (rq : ResponseRow × QuizRow) => rq.2.two_category == cat) =
      (fun (rq : ResponseRow × QuizRow) =>
        (fun (_ : ResponseRow) => true) rq.1 &&
        (fun (q : QuizRow) => q.two_category == cat) rq.2) from
    funext fun rq => by simp]
  rw [join_group_length db.quiz hnd (fun q => q.two_category == cat)
    (fun _ => true)]
  congr 1

/-- The embedded `SUM(r.score)` per category equals the spec-side count of
correct responses. -/
theorem catCorrect_eq_spec (db : DB) (sid aid : Nat) (cat : String)
    (hnd : (db.quiz.map (fun q => q.quiz_id)).Nodup) :
    catCorrect db sid aid cat = specCatCorrect db sid aid cat := by
  unfold catCorrect catRows attemptJoin specCatCorrect attemptResponses
    responseInCat
  rw [List.filter_filter, List.filter_filter]
  rw [show (fun (rq : ResponseRow × QuizRow) =>
        rq.1.score && rq.2.two_category == cat) =
      (fun (rq : ResponseRow × QuizRow) =>
        (fun (r : ResponseRow) => r.score) rq.1 &&
        (fun (q : QuizRow) => q.two_category == cat) rq.2) from
    funext fun rq => by simp]
  rw [join_group_length db.quiz hnd (fun q => q.two_category == cat)
    (fun r => r.score)]

/-- On the non-degenerate path, mastery aggregates the most recent live
attempt. -/
theorem mastery_of_live (db : DB) (sid : Nat) (arow : AttemptRow)
    (hcol : db.quizHasTwoCategory = true)
    (hlive : latestLiveRow db sid = some arow) :
    get_two_category_mastery db sid =
      masteryOfAttempt db sid arow.attempt_id := by
  unfold get_two_category_mastery
  rw [if_neg (by rw [hcol]; exact fun h => Bool.noConfusion h), hlive]

theorem foldl_pickLatest_mem :
    ∀ (l : List AttemptRow) (acc : Option AttemptRow) (b : AttemptRow),
      l.foldl pickLatest acc = some b → b ∈ l ∨ acc = some b := by
  intro l
  induction l with
  | nil => exact fun acc b h => Or.inr h
  | cons a l ih =>
    intro acc b h
    rw [List.foldl_cons] at h
    rcases ih (pickLatest acc a) b h with hmem | hacc
    · exact Or.inl (List.mem_cons_of_mem _ hmem)
    · cases acc with
      | none =>
        injection hacc with h'
        exact Or.inl (h' ▸ List.mem_cons_self a l)
      | some c =>
        simp only [pickLatest] at hacc
        split_ifs at hacc
        · injection hacc with h'
          exact Or.inl (h' ▸ List.mem_cons_self a l)
        · exact Or.inr hacc

/-- The attempt selected by `latestLiveRow` belongs to the student and
passes the live guard. -/
theorem latestLiveRow_props (db : DB) (sid : Nat) (arow : AttemptRow)
    (h : latestLiveRow db sid = some arow) :
    arow ∈ db.attempt ∧ arow.student_id = sid ∧ isLive db arow = true := by
  unfold latestLiveRow at h
  rcases foldl_pickLatest_mem _ none arow h with hmem | habs
  · rw [List.mem_filter] at hmem
    obtain ⟨hm, hp⟩ := hmem
    rw [Bool.and_eq_true] at hp
    exact ⟨hm, eq_of_beq hp.1, hp.2⟩
  · exact absurd habs (by simp)

/-- On the non-degenerate path the reported accuracies are the spec-side
accuracies of the most recent live attempt (distinct quiz ids). -/
theorem mastery_pct_eq_attemptAccuracy (db : DB) (sid : Nat)
    (arow : AttemptRow) (hcol : db.quizHasTwoCategory = true)
    (hlive : latestLiveRow db sid = some arow)
    (hnd : (db.quiz.map (fun q => q.quiz_id)).Nodup) :
    (get_two_category_mastery db sid).fund.pct =
      attemptAccuracy db sid arow.attempt_id FUND ∧
    (get_two_category_mastery db sid).norm.pct =
      attemptAccuracy db sid arow.attempt_id NORM := by
  rw [mastery_of_live db sid arow hcol hlive]
  constructor
  · rw [masteryOfAttempt_fund_pct,
      catTotal_eq_spec db sid arow.attempt_id FUND hnd,
      catCorrect_eq_spec db sid arow.attempt_id FUND hnd]
    rfl
  · rw [masteryOfAttempt_norm_pct,
      catTotal_eq_spec db sid arow.attempt_id NORM hnd,
      catCorrect_eq_spec db sid arow.attempt_id NORM hnd]
    rfl

/-! ### Claim theorems (first group) -/

/-- C2: in the earlier revision, the unlock flag holds exactly when both
categories' points are at least 17.5 (= 35/2, i.e. 35% of 50) and the
overall point total is strictly greater than 70. -/
theorem C2_old_unlock_rule (db : DB) (sid : Nat) :
    (old_get_two_category_mastery db sid).unlocked_next = true ↔
      ((35:ℚ)/2 ≤ (old_get_two_category_mastery db sid).fund_points ∧
       (35:ℚ)/2 ≤ (old_get_two_category_mastery db sid).norm_points ∧
       (70:ℚ) < (old_get_two_category_mastery db sid).overall_points) := by
  simp only [old_get_two_category_mastery, Bool.and_eq_true, decide_eq_true_eq,
    ge_iff_le, gt_iff_lt, and_assoc]

/-- C4: each category's points equal the accuracy percentage times 0.5
(rounded to one decimal), 100% accuracy yields exactly 50 points, and the
overall total — the sum of the two categories' points — never exceeds
100. -/
theorem C4_points_formula (db : DB) (sid : Nat) :
    (get_two_category_mastery db sid).fund.pts =
        round1 ((get_two_category_mastery db sid).fund.pct * (1/2)) ∧
    (get_two_category_mastery db sid).norm.pts =
        round1 ((get_two_category_mastery db sid).norm.pct * (1/2)) ∧
    ((get_two_category_mastery db sid).fund.pct = 100 →
        (get_two_category_mastery db sid).fund.pts = 50) ∧
    ((get_two_category_mastery db sid).norm.pct = 100 →
        (get_two_category_mastery db sid).norm.pts = 50) ∧
    (get_two_category_mastery db sid).overall_points =
        (get_two_category_mastery db sid).fund.pts +
          (get_two_category_mastery db sid).norm.pts ∧
    (get_two_category_mastery db sid).overall_points ≤ 100 := by
  have half : ∀ p : ℚ, p / 100 * 50 = p * (1/2) := by intro p; ring
  rcases mastery_cases db sid with h | ⟨arow, _, h⟩ <;> rw [h]
  · refine ⟨?_, ?_, ?_, ?_, ?_, ?_⟩ <;>
      simp [emptyMastery, round1_zero]
  · set aid := arow.attempt_id
    have hfle : (masteryOfAttempt db sid aid).fund.pct ≤ 100 := by
      rw [masteryOfAttempt_fund_pct]
      exact pct_formula_le_100 (catCorrect_le_catTotal db sid aid FUND)
    have hnle : (masteryOfAttempt db sid aid).norm.pct ≤ 100 := by
      rw [masteryOfAttempt_norm_pct]
      exact pct_formula_le_100 (catCorrect_le_catTotal db sid aid NORM)
    have hov : (masteryOfAttempt db sid aid).overall_points =
        (masteryOfAttempt db sid aid).fund.pts +
          (masteryOfAttempt db sid aid).norm.pts := by
      rw [masteryOfAttempt_overall, masteryOfAttempt_fund_pts,
        masteryOfAttempt_norm_pts, round1_add_round1]
    refine ⟨?_, ?_, ?_, ?_, hov, ?_⟩
    · rw [masteryOfAttempt_fund_pts, half]
    · rw [masteryOfAttempt_norm_pts, half]
    · intro hp; rw [masteryOfAttempt_fund_pts, hp]
      norm_num [round1_fifty]
    · intro hp; rw [masteryOfAttempt_norm_pts, hp]
      norm_num [round1_fifty]
    · rw [hov]
      have h1 : (masteryOfAttempt db sid aid).fund.pts ≤ 50 := by
        rw [masteryOfAttempt_fund_pts]; exact pts_formula_le_50 hfle
      have h2 : (masteryOfAttempt db sid aid).norm.pts ≤ 50 := by
        rw [masteryOfAttempt_norm_pts]; exact pts_formula_le_50 hnle
      linarith

/-- C8: `next_step_concept` returns the fundamentals category whenever its
accuracy is below 100%, otherwise the normalization category when that one
is below 100%, `none` exactly when both equal 100%, and the fundamentals
category whenever the student has no live attempt. -/
theorem C8_next_step_concept (db : DB) (sid : Nat) :
    ((get_two_category_mastery db sid).fund.pct < 100 →
        next_step_concept db sid = some FUND) ∧
    ((get_two_category_mastery db sid).fund.pct = 100 →
      (get_two_category_mastery db sid).norm.pct < 100 →
        next_step_concept db sid = some NORM) ∧
    (next_step_concept db sid = none ↔
      ((get_two_category_mastery db sid).fund.pct = 100 ∧
       (get_two_category_mastery db sid).norm.pct = 100)) ∧
    (latestLiveRow db sid = none → next_step_concept db sid = some FUND) := by
  have hf := mastery_fund_pct_le db sid
  have hn := mastery_norm_pct_le db sid
  simp only [next_step_concept]
  split_ifs with h1 h2
  · refine ⟨fun _ => rfl, ?_, ?_, fun _ => rfl⟩
    · intro hf100 _; rw [hf100] at h1; exact absurd h1 (lt_irrefl 100)
    · constructor
      · intro habs; cases habs
      · rintro ⟨hf100, -⟩; rw [hf100] at h1; exact absurd h1 (lt_irrefl 100)
  · have hf100 : (get_two_category_mastery db sid).fund.pct = 100 :=
      le_antisymm hf (not_lt.mp h1)
    refine ⟨?_, fun _ _ => rfl, ?_, ?_⟩
    · intro hlt; rw [hf100] at hlt; exact absurd hlt (lt_irrefl 100)
    · constructor
      · intro habs; cases habs
      · rintro ⟨-, hn100⟩; rw [hn100] at h2; exact absurd h2 (lt_irrefl 100)
    · intro hnone
      rw [mastery_of_no_live db sid hnone] at h1
      exact absurd (by norm_num [emptyMastery] :
        (emptyMastery.fund.pct : ℚ) < 100) h1
  · have hf100 : (get_two_category_mastery db sid).fund.pct = 100 :=
      le_antisymm hf (not_lt.mp h1)
    have hn100 : (get_two_category_mastery db sid).norm.pct = 100 :=
      le_antisymm hn (not_lt.mp h2)
    refine ⟨?_, ?_, ?_, ?_⟩
    · intro hlt; rw [hf100] at hlt; exact absurd hlt (lt_irrefl 100)
    · intro _ hlt; rw [hn100] at hlt; exact absurd hlt (lt_irrefl 100)
    · exact ⟨fun _ => ⟨hf100, hn100⟩, fun _ => rfl⟩
    · intro hnone
      rw [mastery_of_no_live db sid hnone] at h1
      exact absurd (by norm_num [emptyMastery] :
        (emptyMastery.fund.pct : ℚ) < 100) h1

/-- C3: on the student's most recent live attempt, a category with at
least one response reports accuracy `round1(correct/total × 100)`; a
category with zero responses reports accuracy 0.0. -/
theorem C3_per_category_accuracy (db : DB) (sid : Nat) (arow : AttemptRow)
    (hcol : db.quizHasTwoCategory = true)
    (hlive : latestLiveRow db sid = some arow)
    (hnd : (db.quiz.map (fun q => q.quiz_id)).Nodup) :
    (0 < specCatTotal db sid arow.attempt_id FUND →
      (get_two_category_mastery db sid).fund.pct =
        round1 ((specCatCorrect db sid arow.attempt_id FUND : ℚ) /
          (specCatTotal db sid arow.attempt_id FUND : ℚ) * 100)) ∧
    (specCatTotal db sid arow.attempt_id FUND = 0 →
      (get_two_category_mastery db sid).fund.pct = 0) ∧
    (0 < specCatTotal db sid arow.attempt_id NORM →
      (get_two_category_mastery db sid).norm.pct =
        round1 ((specCatCorrect db sid arow.attempt_id NORM : ℚ) /
          (specCatTotal db sid arow.attempt_id NORM : ℚ) * 100)) ∧
    (specCatTotal db sid arow.attempt_id NORM = 0 →
      (get_two_category_mastery db sid).norm.pct = 0) := by
  obtain ⟨hfp, hnp⟩ :=
    mastery_pct_eq_attemptAccuracy db sid arow hcol hlive hnd
  rw [hfp, hnp]
  unfold attemptAccuracy
  refine ⟨?_, ?_, ?_, ?_⟩
  · intro h
    rw [if_neg (Nat.pos_iff_ne_zero.mp h)]
    congr 1
    ring
  · intro h; rw [if_pos h]
  · intro h
    rw [if_neg (Nat.pos_iff_ne_zero.mp h)]
    congr 1
    ring
  · intro h; rw [if_pos h]

/-- C1: the dashboard's next-topic unlock flag holds exactly when the
accuracies of both categories on the most recent live attempt equal 100%;
a category with zero responses on that attempt blocks unlocking. -/
theorem C1_dashboard_unlock (db : DB) (sid : Nat) (arow : AttemptRow)
    (hcol : db.quizHasTwoCategory = true)
    (hlive : latestLiveRow db sid = some arow)
    (hnd : (db.quiz.map (fun q => q.quiz_id)).Nodup) :
    (dashboard_unlocked_next db sid = true ↔
      (attemptAccuracy db sid arow.attempt_id FUND = 100 ∧
       attemptAccuracy db sid arow.attempt_id NORM = 100)) ∧
    (specCatTotal db sid arow.attempt_id FUND = 0 →
      dashboard_unlocked_next db sid = false) ∧
    (specCatTotal db sid arow.attempt_id NORM = 0 →
      dashboard_unlocked_next db sid = false) := by
  obtain ⟨hfp, hnp⟩ :=
    mastery_pct_eq_attemptAccuracy db sid arow hcol hlive hnd
  have hiff : dashboard_unlocked_next db sid = true ↔
      (attemptAccuracy db sid arow.attempt_id FUND = 100 ∧
       attemptAccuracy db sid arow.attempt_id NORM = 100) := by
    show (decide ((get_two_category_mastery db sid).fund.pct = 100) &&
      decide ((get_two_category_mastery db sid).norm.pct = 100)) = true ↔ _
    rw [hfp, hnp, Bool.and_eq_true, decide_eq_true_eq, decide_eq_true_eq]
  refine ⟨hiff, ?_, ?_⟩
  · intro h
    have hacc : attemptAccuracy db sid arow.attempt_id FUND = 0 := by
      unfold attemptAccuracy; rw [if_pos h]
    cases hu : dashboard_unlocked_next db sid with
    | false => rfl
    | true =>
      obtain ⟨h100, -⟩ := hiff.mp hu
      rw [hacc] at h100
      norm_num at h100
  · intro h
    have hacc : attemptAccuracy db sid arow.attempt_id NORM = 0 := by
      unfold attemptAccuracy; rw [if_pos h]
    cases hu : dashboard_unlocked_next db sid with
    | false => rfl
    | true =>
      obtain ⟨-, h100⟩ := hiff.mp hu
      rw [hacc] at h100
      norm_num at h100

/-- C9: when the `two_category` column is missing, or the student has no
attempt passing the live guard, `get_two_category_mastery` returns the
all-zero record instead of failing. -/
theorem C9_degenerate_returns_empty (db : DB) (sid : Nat)
    (h : db.quizHasTwoCategory = false ∨
      ∀ a ∈ db.attempt, ¬(a.student_id = sid ∧ isLive db a = true)) :
    get_two_category_mastery db sid = emptyMastery := by
  rcases h with hcol | hno
  · unfold get_two_category_mastery
    rw [if_pos hcol]
  · apply mastery_of_no_live
    unfold latestLiveRow
    have hnil : db.attempt.filter
        (fun a => a.student_id == sid && isLive db a) = [] := by
      rw [List.filter_eq_nil_iff]
      intro a ha hpred
      rw [Bool.and_eq_true] at hpred
      exact hno a ha ⟨eq_of_beq hpred.1, hpred.2⟩
    rw [hnil]
    rfl

/-- C5: a response attached to a non-live attempt, or to an attempt
strictly older than the most recent live one, has no effect on the
mastery record (assuming distinct attempt ids). -/
theorem C5_only_latest_live_attempt_counts (db : DB) (sid : Nat)
    (arow a : AttemptRow) (r0 : ResponseRow)
    (hlive : latestLiveRow db sid = some arow)
    (hnd : (db.attempt.map (fun x => x.attempt_id)).Nodup)
    (ha : a ∈ db.attempt) (haid : a.attempt_id = r0.attempt_id)
    (hnot : isLive db a = false ∨ a.started_at < arow.started_at) :
    get_two_category_mastery {db with response := r0 :: db.response} sid =
      get_two_category_mastery db sid := by
  obtain ⟨hmem, -, hlv⟩ := latestLiveRow_props db sid arow hlive
  have hane : a ≠ arow := by
    rcases hnot with hl | hst
    · intro he; rw [he, hlv] at hl; exact Bool.noConfusion hl
    · intro he; rw [he] at hst; exact absurd hst (lt_irrefl _)
  have hidne : r0.attempt_id ≠ arow.attempt_id := by
    rw [← haid]
    intro he
    exact hane (List.inj_on_of_nodup_map hnd ha hmem he)
  have hjoin : attemptJoin {db with response := r0 :: db.response} sid
      arow.attempt_id = attemptJoin db sid arow.attempt_id := by
    unfold attemptJoin
    rw [show ({db with response := r0 :: db.response} : DB).response =
      r0 :: db.response from rfl]
    rw [List.filter_cons, if_neg (by simp [hidne])]
  have hlr : latestLiveRow {db with response := r0 :: db.response} sid =
      latestLiveRow db sid := rfl
  unfold get_two_category_mastery
  rw [hlr, hlive]
  split_ifs with h1
  · rfl
  · simp only [masteryOfAttempt, catTotal, catCorrect, catRows, hjoin]

/-! ### Structure lemmas for `_select_questions_payload` -/

/-- Case analysis of the loop body. -/
theorem addRow_cases (acc : List Question × List Nat) (row : QuizRow) :
    addRow acc row = acc ∨
    (row.quiz_id ∉ acc.2 ∧ (safe_parse_options row.optionsJson).length = 4 ∧
      addRow acc row = (acc.1 ++ [rowToQuestion row], row.quiz_id :: acc.2)) := by
  unfold addRow
  split_ifs with h1 h2
  · exact Or.inl rfl
  · exact Or.inl rfl
  · exact Or.inr ⟨h1, not_ne_iff.mp h2, rfl⟩

/-- The top-up loop body either keeps the state or behaves like the plain
loop body. -/
theorem addRowBounded_cases (total : Nat) (acc : List Question × List Nat)
    (row : QuizRow) :
    addRowBounded total acc row = acc ∨
    addRowBounded total acc row = addRow acc row := by
  unfold addRowBounded
  split_ifs
  · exact Or.inl rfl
  · exact Or.inr rfl

/-- Every question collected by a fold of a loop body (plain or bounded)
has exactly 4 options. -/
theorem foldl_step_options (g : List Question × List Nat → QuizRow →
      List Question × List Nat)
    (hg : ∀ acc row, g acc row = acc ∨ g acc row = addRow acc row) :
    ∀ (rows : List QuizRow) (acc : List Question × List Nat),
      (∀ q ∈ acc.1, q.options.length = 4) →
      ∀ q ∈ (rows.foldl g acc).1, q.options.length = 4 := by
  intro rows
  induction rows with
  | nil => exact fun acc h => h
  | cons row rows ih =>
    intro acc h
    rw [List.foldl_cons]
    apply ih
    rcases hg acc row with he | he <;> rw [he]
    · exact h
    · rcases addRow_cases acc row with ha | ⟨-, h4, ha⟩ <;> rw [ha]
      · exact h
      · intro q hq
        rcases List.mem_append.mp hq with hq | hq
        · exact h q hq
        · rw [List.mem_singleton.mp hq]
          exact h4

/-- A fold of a loop body keeps the collected ids pairwise distinct and
recorded in the seen set. -/
theorem foldl_step_nodup (g : List Question × List Nat → QuizRow →
      List Question × List Nat)
    (hg : ∀ acc row, g acc row = acc ∨ g acc row = addRow acc row) :
    ∀ (rows : List QuizRow) (acc : List Question × List Nat),
      (acc.1.map (fun q => q.quiz_id)).Nodup →
      (∀ q ∈ acc.1, q.quiz_id ∈ acc.2) →
      ((rows.foldl g acc).1.map (fun q => q.quiz_id)).Nodup ∧
      (∀ q ∈ (rows.foldl g acc).1, q.quiz_id ∈ (rows.foldl g acc).2) := by
  intro rows
  induction rows with
  | nil => exact fun acc h1 h2 => ⟨h1, h2⟩
  | cons row rows ih =>
    intro acc h1 h2
    rw [List.foldl_cons]
    rcases hg acc row with he | he
    · rw [he]; exact ih acc h1 h2
    · rw [he]
      rcases addRow_cases acc row with ha | ⟨hnew, -, ha⟩
      · rw [ha]; exact ih acc h1 h2
      · rw [ha]
        apply ih
        · rw [List.map_append, List.nodup_append]
          refine ⟨h1, List.nodup_singleton _, ?_⟩
          intro x hx hy
          have hxid : x = row.quiz_id := by
            rcases List.mem_map.mp hy with ⟨q, hq, hqe⟩
            rw [List.mem_singleton.mp hq] at hqe
            exact hqe.symm
          rcases List.mem_map.mp hx with ⟨q, hq, hqe⟩
          apply hnew
          rw [← hxid, ← hqe]
          exact h2 q hq
        · intro q hq
          rcases List.mem_append.mp hq with hq | hq
          · exact List.mem_cons_of_mem _ (h2 q hq)
          · rw [List.mem_singleton.mp hq]
            exact List.mem_cons_self _ _

/-- Every question collected by a fold comes either from the starting
state or from one of the folded rows. -/
theorem foldl_step_origin (g : List Question × List Nat → QuizRow →
      List Question × List Nat)
    (hg : ∀ acc row, g acc row = acc ∨ g acc row = addRow acc row) :
    ∀ (rows : List QuizRow) (acc : List Question × List Nat)
      (q : Question), q ∈ (rows.foldl g acc).1 →
      q ∈ acc.1 ∨ ∃ row ∈ rows, q = rowToQuestion row := by
  intro rows
  induction rows with
  | nil => exact fun acc q h => Or.inl h
  | cons row rows ih =>
    intro acc q hq
    rw [List.foldl_cons] at hq
    rcases ih (g acc row) q hq with hmem | ⟨row', hrow', he⟩
    · have hstep : q ∈ acc.1 ∨ q = rowToQuestion row := by
        rcases hg acc row with he | he
        · rw [he] at hmem; exact Or.inl hmem
        · rw [he] at hmem
          rcases addRow_cases acc row with ha | ⟨-, -, ha⟩
          · rw [ha] at hmem; exact Or.inl hmem
          · rw [ha] at hmem
            rcases List.mem_append.mp hmem with hmem | hmem
            · exact Or.inl hmem
            · exact Or.inr (List.mem_singleton.mp hmem)
      rcases hstep with h | h
      · exact Or.inl h
      · exact Or.inr ⟨row, List.mem_cons_self _ _, h⟩
    · exact Or.inr ⟨row', List.mem_cons_of_mem _ hrow', he⟩

/-- A fold of a loop body grows the question list by at most one question
per folded row. -/
theorem foldl_step_length_le (g : List Question × List Nat → QuizRow →
      List Question × List Nat)
    (hg : ∀ acc row, g acc row = acc ∨ g acc row = addRow acc row) :
    ∀ (rows : List QuizRow) (acc : List Question × List Nat),
      (rows.foldl g acc).1.length ≤ acc.1.length + rows.length := by
  intro rows
  induction rows with
  | nil => exact fun acc => Nat.le_refl _
  | cons row rows ih =>
    intro acc
    rw [List.foldl_cons]
    have hle : (g acc row).1.length ≤ acc.1.length + 1 := by
      rcases hg acc row with he | he <;> rw [he]
      · omega
      · rcases addRow_cases acc row with ha | ⟨-, -, ha⟩ <;> rw [ha]
        · omega
        · simp
    calc ((rows.foldl g (g acc row)).1).length
        ≤ (g acc row).1.length + rows.length := ih (g acc row)
      _ ≤ acc.1.length + 1 + rows.length := by omega
      _ = acc.1.length + (row :: rows).length := by
          rw [List.length_cons]; omega

/-- When every folded row is valid, has a fresh id within the folded rows
and avoids the seen set, every row appends: the exact-length law. -/
theorem foldl_addRow_exact :
    ∀ (rows : List QuizRow) (acc : List Question × List Nat),
      (∀ r ∈ rows, (safe_parse_options r.optionsJson).length = 4) →
      ((rows.map (fun r => r.quiz_id)).Nodup) →
      (∀ r ∈ rows, r.quiz_id ∉ acc.2) →
      (rows.foldl addRow acc).1.length = acc.1.length + rows.length ∧
      (∀ x, x ∈ (rows.foldl addRow acc).2 ↔
        (x ∈ acc.2 ∨ x ∈ rows.map (fun r => r.quiz_id))) := by
  intro rows
  induction rows with
  | nil =>
    intro acc _ _ _
    exact ⟨rfl, fun x => by simp⟩
  | cons r rows ih =>
    intro acc hval hnd hdis
    rw [List.map_cons, List.nodup_cons] at hnd
    obtain ⟨hhead, htail⟩ := hnd
    have he : addRow acc r = (acc.1 ++ [rowToQuestion r], r.quiz_id :: acc.2) := by
      unfold addRow
      rw [if_neg (hdis r (List.mem_cons_self _ _)),
        if_neg (not_ne_iff.mpr (hval r (List.mem_cons_self _ _)))]
    rw [List.foldl_cons, he]
    have hdis' : ∀ r' ∈ rows, r'.quiz_id ∉
        ((acc.1 ++ [rowToQuestion r], r.quiz_id :: acc.2) :
          List Question × List Nat).2 := by
      intro r' hr' hmem
      rcases List.mem_cons.mp hmem with hid | hid
      · exact hhead (hid ▸ List.mem_map_of_mem _ hr')
      · exact hdis r' (List.mem_cons_of_mem _ hr') hid
    obtain ⟨hlen, hseen⟩ := ih (acc.1 ++ [rowToQuestion r], r.quiz_id :: acc.2)
      (fun r' hr' => hval r' (List.mem_cons_of_mem _ hr')) htail hdis'
    constructor
    · rw [hlen]
      simp only [List.length_append, List.length_cons, List.length_nil]
      omega
    · intro x
      rw [hseen x]
      simp only [List.mem_cons, List.map_cons]
      tauto

/-- `selectCore` with the lets expanded. -/
theorem selectCore_eq (total : Nat) (c1 c2 combo : List QuizRow) :
    selectCore total c1 c2 combo =
      (if (drawCategory c2 (max 1 (total / 2))
            (drawCategory c1 (max 1 (total / 2)) ([], []))).1.length < total
       then ((combo.take (total -
              (drawCategory c2 (max 1 (total / 2))
                (drawCategory c1 (max 1 (total / 2)) ([], []))).1.length)).foldl
              (addRowBounded total)
              (drawCategory c2 (max 1 (total / 2))
                (drawCategory c1 (max 1 (total / 2)) ([], [])))).1
       else (drawCategory c2 (max 1 (total / 2))
              (drawCategory c1 (max 1 (total / 2)) ([], []))).1) := rfl

/-- The questions produced by `selectCore` all have 4 options and have
pairwise distinct ids. -/
theorem selectCore_invariants (total : Nat) (c1 c2 combo : List QuizRow) :
    (∀ q ∈ selectCore total c1 c2 combo, q.options.length = 4) ∧
    ((selectCore total c1 c2 combo).map (fun q => q.quiz_id)).Nodup := by
  have hgA : ∀ (acc : List Question × List Nat) row,
      addRow acc row = acc ∨ addRow acc row = addRow acc row :=
    fun acc row => Or.inr rfl
  have hgB := addRowBounded_cases total
  have base4 : ∀ q ∈ (([], []) : List Question × List Nat).1,
      q.options.length = 4 := by intro q hq; cases hq
  have baseN : ((([], []) : List Question × List Nat).1.map
      (fun q => q.quiz_id)).Nodup := List.nodup_nil
  have baseS : ∀ q ∈ (([], []) : List Question × List Nat).1,
      q.quiz_id ∈ (([], []) : List Question × List Nat).2 := by
    intro q hq; cases hq
  have h1o := foldl_step_options addRow hgA (c1.take (max 1 (total / 2)))
    ([], []) base4
  have h1n := foldl_step_nodup addRow hgA (c1.take (max 1 (total / 2)))
    ([], []) baseN baseS
  have h2o := foldl_step_options addRow hgA (c2.take (max 1 (total / 2)))
    (drawCategory c1 (max 1 (total / 2)) ([], [])) h1o
  have h2n := foldl_step_nodup addRow hgA (c2.take (max 1 (total / 2)))
    (drawCategory c1 (max 1 (total / 2)) ([], [])) h1n.1 h1n.2
  rw [selectCore_eq]
  split_ifs with hlt
  · have h3o := foldl_step_options (addRowBounded total) hgB
      (combo.take (total - (drawCategory c2 (max 1 (total / 2))
        (drawCategory c1 (max 1 (total / 2)) ([], []))).1.length))
      (drawCategory c2 (max 1 (total / 2))
        (drawCategory c1 (max 1 (total / 2)) ([], []))) h2o
    have h3n := foldl_step_nodup (addRowBounded total) hgB
      (combo.take (total - (drawCategory c2 (max 1 (total / 2))
        (drawCategory c1 (max 1 (total / 2)) ([], []))).1.length))
      (drawCategory c2 (max 1 (total / 2))
        (drawCategory c1 (max 1 (total / 2)) ([], []))) h2n.1 h2n.2
    exact ⟨h3o, h3n.1⟩
  · exact ⟨h2o, h2n.1⟩

/-- C10: every question of the returned payload has exactly 4 options, and
the returned quiz ids are pairwise distinct. -/
theorem C10_payload_invariants (total : Nat) (c1 c2 combo : List QuizRow)
    (shuffled : List Question)
    (hsh : shuffled.Perm (selectCore total c1 c2 combo)) :
    (∀ q ∈ selectPayload total shuffled, q.options.length = 4) ∧
    ((selectPayload total shuffled).map (fun q => q.quiz_id)).Nodup := by
  obtain ⟨h4, hnd⟩ := selectCore_invariants total c1 c2 combo
  constructor
  · intro q hq
    have hq' : q ∈ shuffled :=
      (List.take_sublist total shuffled).subset hq
    exact h4 q (hsh.mem_iff.mp hq')
  · have hmap : (shuffled.map (fun q => q.quiz_id)).Nodup :=
      (hsh.map (fun q => q.quiz_id)).nodup_iff.mpr hnd
    unfold selectPayload
    rw [List.map_take]
    exact List.Nodup.sublist (List.take_sublist _ _) hmap

/-- C6: the selection draws at most `total/2` (15 for the default 30) per
category, skips the top-up pass when the per-category draws already reach
`total`, tops up only from the combined pool, and returns at most `total`
questions after the final shuffle. -/
theorem C6_selection_shape (dbQuiz : List QuizRow) (total : Nat)
    (c1 c2 combo : List QuizRow) (shuffled : List Question)
    (hc1 : c1.Perm (categorySlice dbQuiz FUND))
    (hc2 : c2.Perm (categorySlice dbQuiz NORM))
    (hcombo : combo.Perm (comboSlice dbQuiz))
    (hsh : shuffled.Perm (selectCore total c1 c2 combo)) :
    (selectPayload total shuffled).length ≤ total ∧
    (total = 30 → max 1 (total / 2) = 15) ∧
    (drawCategory c1 (max 1 (total / 2)) ([], [])).1.length ≤
      max 1 (total / 2) ∧
    (drawCategory c2 (max 1 (total / 2))
      (drawCategory c1 (max 1 (total / 2)) ([], []))).1.length ≤
      2 * max 1 (total / 2) ∧
    (¬ (drawCategory c2 (max 1 (total / 2))
        (drawCategory c1 (max 1 (total / 2)) ([], []))).1.length < total →
      selectCore total c1 c2 combo =
        (drawCategory c2 (max 1 (total / 2))
          (drawCategory c1 (max 1 (total / 2)) ([], []))).1) ∧
    (∀ q ∈ selectCore total c1 c2 combo,
      q ∈ (drawCategory c2 (max 1 (total / 2))
        (drawCategory c1 (max 1 (total / 2)) ([], []))).1 ∨
      ∃ row ∈ combo, q = rowToQuestion row) := by
  have hgA : ∀ (acc : List Question × List Nat) row,
      addRow acc row = acc ∨ addRow acc row = addRow acc row :=
    fun acc row => Or.inr rfl
  have hgB := addRowBounded_cases total
  refine ⟨List.length_take_le total shuffled, ?_, ?_, ?_, ?_, ?_⟩
  · intro h; subst h; rfl
  · have hf := foldl_step_length_le addRow hgA
      (c1.take (max 1 (total / 2))) ([], [])
    have ht := List.length_take_le (max 1 (total / 2)) c1
    unfold drawCategory
    simp only [List.length_nil] at hf
    omega
  · have hf1 := foldl_step_length_le addRow hgA
      (c1.take (max 1 (total / 2))) ([], [])
    have hf2 := foldl_step_length_le addRow hgA
      (c2.take (max 1 (total / 2)))
      (drawCategory c1 (max 1 (total / 2)) ([], []))
    have ht1 := List.length_take_le (max 1 (total / 2)) c1
    have ht2 := List.length_take_le (max 1 (total / 2)) c2
    unfold drawCategory
    unfold drawCategory at hf2
    simp only [List.length_nil] at hf1
    omega
  · intro h
    rw [selectCore_eq, if_neg h]
  · intro q hq
    rw [selectCore_eq] at hq
    split_ifs at hq with h
    · rcases foldl_step_origin (addRowBounded total) hgB _ _ q hq with
        hmem | ⟨row, hrow, he⟩
      · exact Or.inl hmem
      · exact Or.inr ⟨row, (List.take_sublist _ combo).subset hrow, he⟩
    · exact Or.inl hq

set_option maxRecDepth 8000 in
/-- C7 fails on the code: a bank with 15 valid questions per category (plus
one invalid fundamentals question) can yield only 29 questions, because the
SQL `LIMIT` fetches rows before the 4-option validity filter and the
top-up query can return rows that were already selected. -/
theorem C7_thirty_question_counterexample :
    cexC1.Perm (categorySlice cexQuiz FUND) ∧
    cexC2.Perm (categorySlice cexQuiz NORM) ∧
    cexCombo.Perm (comboSlice cexQuiz) ∧
    15 ≤ validCount cexQuiz FUND ∧
    15 ≤ validCount cexQuiz NORM ∧
    (selectPayload 30 (selectCore 30 cexC1 cexC2 cexCombo)).length = 29 := by
  refine ⟨List.Perm.refl _, List.Perm.refl _, List.Perm.refl _,
    by decide, by decide, by decide⟩

/-- C7 amended: when additionally every question of the two categories is
valid and quiz ids are pairwise distinct, a bank with at least 15 questions
per category always yields exactly 30 questions, all drawn from the two
categories. -/
theorem C7_amended_thirty_questions (dbQuiz : List QuizRow)
    (c1 c2 combo : List QuizRow) (shuffled : List Question)
    (hnodup : (dbQuiz.map (fun q => q.quiz_id)).Nodup)
    (hvalid : ∀ q ∈ dbQuiz, (q.two_category = FUND ∨ q.two_category = NORM) →
      (safe_parse_options q.optionsJson).length = 4)
    (h1 : 15 ≤ (categorySlice dbQuiz FUND).length)
    (h2 : 15 ≤ (categorySlice dbQuiz NORM).length)
    (hc1 : c1.Perm (categorySlice dbQuiz FUND))
    (hc2 : c2.Perm (categorySlice dbQuiz NORM))
    (hsh : shuffled.Perm (selectCore 30 c1 c2 combo)) :
    (selectPayload 30 shuffled).length = 30 ∧
    (∀ q ∈ selectPayload 30 shuffled, ∃ row ∈ dbQuiz,
      (row.two_category = FUND ∨ row.two_category = NORM) ∧
      q = rowToQuestion row) := by
  have hpc : max 1 (30 / 2) = 15 := rfl
  -- facts about the category orders
  have hmem1 : ∀ r ∈ c1, r ∈ dbQuiz ∧ r.two_category = FUND := by
    intro r hr
    have hr' := hc1.mem_iff.mp hr
    rw [categorySlice, List.mem_filter] at hr'
    exact ⟨hr'.1, eq_of_beq hr'.2⟩
  have hmem2 : ∀ r ∈ c2, r ∈ dbQuiz ∧ r.two_category = NORM := by
    intro r hr
    have hr' := hc2.mem_iff.mp hr
    rw [categorySlice, List.mem_filter] at hr'
    exact ⟨hr'.1, eq_of_beq hr'.2⟩
  have hnd1 : (c1.map (fun q => q.quiz_id)).Nodup := by
    refine (hc1.map (fun q => q.quiz_id)).nodup_iff.mpr ?_
    exact List.Nodup.sublist
      ((List.filter_sublist dbQuiz).map (fun q => q.quiz_id)) hnodup
  have hnd2 : (c2.map (fun q => q.quiz_id)).Nodup := by
    refine (hc2.map (fun q => q.quiz_id)).nodup_iff.mpr ?_
    exact List.Nodup.sublist
      ((List.filter_sublist dbQuiz).map (fun q => q.quiz_id)) hnodup
  have hl1 : (c1.take 15).length = 15 := by
    rw [List.length_take]
    have := hc1.length_eq
    omega
  have hl2 : (c2.take 15).length = 15 := by
    rw [List.length_take]
    have := hc2.length_eq
    omega
  -- phase 1, first category
  have hval1 : ∀ r ∈ c1.take 15,
      (safe_parse_options r.optionsJson).length = 4 := by
    intro r hr
    obtain ⟨hm, hcat⟩ := hmem1 r ((List.take_sublist 15 c1).subset hr)
    exact hvalid r hm (Or.inl hcat)
  have hval2 : ∀ r ∈ c2.take 15,
      (safe_parse_options r.optionsJson).length = 4 := by
    intro r hr
    obtain ⟨hm, hcat⟩ := hmem2 r ((List.take_sublist 15 c2).subset hr)
    exact hvalid r hm (Or.inr hcat)
  have hndt1 : ((c1.take 15).map (fun q => q.quiz_id)).Nodup := by
    rw [List.map_take]
    exact List.Nodup.sublist (List.take_sublist _ _) hnd1
  have hndt2 : ((c2.take 15).map (fun q => q.quiz_id)).Nodup := by
    rw [List.map_take]
    exact List.Nodup.sublist (List.take_sublist _ _) hnd2
  obtain ⟨hlen1, hseen1⟩ := foldl_addRow_exact (c1.take 15) ([], [])
    hval1 hndt1 (by intro r _ hmem; cases hmem)
  -- phase 1, second category
  have hdis2 : ∀ r ∈ c2.take 15,
      r.quiz_id ∉ ((c1.take 15).foldl addRow ([], [])).2 := by
    intro r hr hmem
    rcases (hseen1 r.quiz_id).mp hmem with habs | hin
    · cases habs
    · rcases List.mem_map.mp hin with ⟨qa, hqa, hqe⟩
      obtain ⟨hqaQ, hqaC⟩ := hmem1 qa ((List.take_sublist 15 c1).subset hqa)
      obtain ⟨hrQ, hrC⟩ := hmem2 r ((List.take_sublist 15 c2).subset hr)
      have hqar : qa = r := List.inj_on_of_nodup_map hnodup hqaQ hrQ hqe
      rw [hqar, hrC] at hqaC
      exact absurd hqaC (by decide)
  obtain ⟨hlen2, -⟩ := foldl_addRow_exact (c2.take 15)
    ((c1.take 15).foldl addRow ([], [])) hval2 hndt2 hdis2
  have hs2len : (drawCategory c2 (max 1 (30 / 2))
      (drawCategory c1 (max 1 (30 / 2)) ([], []))).1.length = 30 := by
    unfold drawCategory
    rw [hpc, hlen2, hlen1, hl1, hl2]
    rfl
  have hcore : selectCore 30 c1 c2 combo =
      (drawCategory c2 (max 1 (30 / 2))
        (drawCategory c1 (max 1 (30 / 2)) ([], []))).1 := by
    rw [selectCore_eq, if_neg (by rw [hs2len]; omega)]
  have hcorelen : (selectCore 30 c1 c2 combo).length = 30 := by
    rw [hcore, hs2len]
  have hshlen : shuffled.length = 30 := by
    rw [hsh.length_eq, hcorelen]
  constructor
  · unfold selectPayload
    rw [List.length_take, hshlen]
    omega
  · intro q hq
    have hq1 : q ∈ shuffled := (List.take_sublist 30 shuffled).subset hq
    have hq2 : q ∈ selectCore 30 c1 c2 combo := hsh.mem_iff.mp hq1
    rw [hcore] at hq2
    unfold drawCategory at hq2
    have hgA : ∀ (acc : List Question × List Nat) row,
        addRow acc row = acc ∨ addRow acc row = addRow acc row :=
      fun acc row => Or.inr rfl
    rcases foldl_step_origin addRow hgA _ _ q hq2 with hq3 | ⟨row, hrow, he⟩
    · rcases foldl_step_origin addRow hgA _ _ q hq3 with hq4 | ⟨row, hrow, he⟩
      · cases hq4
      · obtain ⟨hm, hcat⟩ := hmem1 row ((List.take_sublist _ c1).subset hrow)
        exact ⟨row, hm, Or.inl hcat, he⟩
    · obtain ⟨hm, hcat⟩ := hmem2 row ((List.take_sublist _ c2).subset hrow)
      exact ⟨row, hm, Or.inr hcat, he⟩

/-! ### Witnesses: the claim theorems applied at concrete database states -/

theorem C1_dashboard_unlock_witness :
    wDB.quizHasTwoCategory = true ∧
    latestLiveRow wDB 1 = some wA2 ∧
    (wDB.quiz.map (fun q => q.quiz_id)).Nodup ∧
    (dashboard_unlocked_next wDB 1 = true ↔
      (attemptAccuracy wDB 1 wA2.attempt_id FUND = 100 ∧
       attemptAccuracy wDB 1 wA2.attempt_id NORM = 100)) :=
  ⟨rfl, rfl, by decide,
    (C1_dashboard_unlock wDB 1 wA2 rfl rfl (by decide)).1⟩

theorem C3_per_category_accuracy_witness :
    latestLiveRow wDB 1 = some wA2 ∧
    (0 < specCatTotal wDB 1 wA2.attempt_id FUND →
      (get_two_category_mastery wDB 1).fund.pct =
        round1 ((specCatCorrect wDB 1 wA2.attempt_id FUND : ℚ) /
          (specCatTotal wDB 1 wA2.attempt_id FUND : ℚ) * 100)) :=
  ⟨rfl, (C3_per_category_accuracy wDB 1 wA2 rfl rfl (by decide)).1⟩

theorem C5_only_latest_live_attempt_counts_witness :
    (wDB.attempt.map (fun x => x.attempt_id)).Nodup ∧
    isLive wDB wA3 = false ∧
    get_two_category_mastery {wDB with response := wR3 :: wDB.response} 1 =
      get_two_category_mastery wDB 1 :=
  ⟨by decide, rfl,
    C5_only_latest_live_attempt_counts wDB 1 wA2 wA3 wR3 rfl (by decide)
      (by decide) rfl (Or.inl rfl)⟩

theorem C9_degenerate_returns_empty_witness :
    (∀ a ∈ wDB.attempt, ¬(a.student_id = 2 ∧ isLive wDB a = true)) ∧
    get_two_category_mastery wDB 2 = emptyMastery :=
  ⟨by decide, C9_degenerate_returns_empty wDB 2 (Or.inr (by decide))⟩

theorem C6_selection_shape_witness :
    ([wQ1] : List QuizRow).Perm (categorySlice [wQ1, wQ2] FUND) ∧
    ([wQ2] : List QuizRow).Perm (categorySlice [wQ1, wQ2] NORM) ∧
    ([wQ1, wQ2] : List QuizRow).Perm (comboSlice [wQ1, wQ2]) ∧
    (selectPayload 2 (selectCore 2 [wQ1] [wQ2] [wQ1, wQ2])).length ≤ 2 :=
  ⟨List.Perm.refl _, List.Perm.refl _, List.Perm.refl _,
    (C6_selection_shape [wQ1, wQ2] 2 [wQ1] [wQ2] [wQ1, wQ2]
      (selectCore 2 [wQ1] [wQ2] [wQ1, wQ2])
      (List.Perm.refl _) (List.Perm.refl _) (List.Perm.refl _)
      (List.Perm.refl _)).1⟩

theorem C10_payload_invariants_witness :
    (selectCore 2 [wQ1] [wQ2] [wQ1, wQ2]).Perm
      (selectCore 2 [wQ1] [wQ2] [wQ1, wQ2]) ∧
    (∀ q ∈ selectPayload 2 (selectCore 2 [wQ1] [wQ2] [wQ1, wQ2]),
      q.options.length = 4) :=
  ⟨List.Perm.refl _,
    (C10_payload_invariants 2 [wQ1] [wQ2] [wQ1, wQ2]
      (selectCore 2 [wQ1] [wQ2] [wQ1, wQ2]) (List.Perm.refl _)).1⟩

set_option maxRecDepth 8000 in
theorem C7_amended_thirty_questions_witness :
    (wQuizBank.map (fun q => q.quiz_id)).Nodup ∧
    15 ≤ (categorySlice wQuizBank FUND).length ∧
    (selectPayload 30 (selectCore 30 cexFundRows cexNormRows [])).length
      = 30 :=
  ⟨by decide, by decide,
    (C7_amended_thirty_questions wQuizBank cexFundRows cexNormRows []
      (selectCore 30 cexFundRows cexNormRows []) (by decide) (by decide)
      (by decide) (by decide) (List.Perm.refl _) (List.Perm.refl _)
      (List.Perm.refl _)).1⟩

end FypQuiz
